import Mathlib

/-!
Verification of `render_isometric_blocks.py` from the
Scripts-Modded-Minecraft repository, via a shallow embedding in Lean.

Conventions of the embedding:
* Python strings (texture stems, keyword tokens) are modelled as `List Char`;
  full filesystem paths are modelled as `String`.
* Python's `dict` (insertion-ordered, last write wins on an existing key,
  which keeps the key's original position) is modelled as an association
  list `List (key × value)` together with `insertLWW`.
* `Path` values are always truthy in Python, so `x or y` on
  Path-or-`None` values is modelled by `pyOr` on `Option`.
* The `re` patterns used by the script are modelled by executable Boolean
  functions on `List Char`; each definition's doc comment names the
  pattern and source line it models.
-/

namespace RenderIso

/-- Characters the script's regexes treat as name delimiters (`[_\-]`). -/
def isDelim (c : Char) : Bool := c == '_' || c == '-'

/-- `true` when a character list is empty or ends with a delimiter: the
condition `(^|[_\-])` imposes on the text standing before a keyword. -/
def boundaryEnd (l : List Char) : Bool := l.getLast?.all isDelim

/-- `true` when a character list is empty or starts with a delimiter: the
condition `([_\-]|$)` imposes on the text standing after a keyword. -/
def boundaryStart (l : List Char) : Bool := l.head?.all isDelim

/-- Model of `re.search(rf"(^|[_\-]){k}([_\-]|$)", stem)` (line 47 of
`render_isometric_blocks.py`): the keyword `k` occurs somewhere in `stem`,
delimited on the left by `_`, `-` or the start of the string and on the
right by `_`, `-` or the end of the string. -/
def tokenMatch (k stem : List Char) : Bool :=
  (List.range (stem.length + 1)).any fun i =>
    boundaryEnd (stem.take i) && ((stem.drop i).take k.length == k)
      && boundaryStart (stem.drop (i + k.length))

/-- Spec §4.3: a "delimited token match" means the keyword appears as a
whole underscore/hyphen-separated segment of the name (or at a string
boundary), not merely as a substring. -/
def DelimitedOccurrence (k stem : List Char) : Prop :=
  ∃ pre post, stem = pre ++ k ++ post
    ∧ (pre = [] ∨ ∃ c, pre.getLast? = some c ∧ isDelim c = true)
    ∧ (post = [] ∨ ∃ c, post.head? = some c ∧ isDelim c = true)

/-- `TOP_KEYS` (line 20). -/
def TOP_KEYS : List (List Char) := ["top".toList, "up".toList, "upper".toList]

/-- `BOTTOM_KEYS` (line 21). -/
def BOTTOM_KEYS : List (List Char) := ["bottom".toList, "down".toList, "lower".toList]

/-- `SIDE_KEYS` (line 22). -/
def SIDE_KEYS : List (List Char) := ["side".toList, "sides".toList]

/-- `FACE_KEYS["north"]` (line 24). -/
def NORTH_KEYS : List (List Char) := ["north".toList]

/-- `FACE_KEYS["south"]` (line 25). -/
def SOUTH_KEYS : List (List Char) := ["south".toList]

/-- `FACE_KEYS["east"]` (line 26). -/
def EAST_KEYS : List (List Char) := ["east".toList]

/-- `FACE_KEYS["west"]` (line 27). -/
def WEST_KEYS : List (List Char) := ["west".toList]

/-- `pick_by_keys(base_stem_to_path, keys)` (lines 44-49): walk the mapping
in insertion order and return the value of the first stem for which some
key matches; `None` when no stem matches. -/
def pick_by_keys {τ : Type} : List (List Char × τ) → List (List Char) → Option τ
  | [], _ => none
  | (stem, p) :: rest, keys =>
    if keys.any (fun k => tokenMatch k stem) then some p else pick_by_keys rest keys

/-- Python `x or y` on Path-or-`None` values: `Path` objects are always
truthy, so the left operand wins exactly when it is not `None`. -/
def pyOr {τ : Type} : Option τ → Option τ → Option τ
  | some x, _ => some x
  | none, b => b

/-- The `faces` dict built by `find_faces` (line 53): slots for top, bottom,
left and right, each a Path or `None`. -/
structure Faces (τ : Type) where
  top : Option τ
  bottom : Option τ
  left : Option τ
  right : Option τ
deriving Repr, DecidableEq

/-- Lines 53-71 of `find_faces`: pick top/bottom/side and the four
directions with `pick_by_keys`; a side match binds both left and right
(`if side_tex:` — `Path` objects are truthy, so this tests `isSome`),
otherwise left is `west or south or east or north` and right is
`east or north or west or south`. -/
def facesStep1 {τ : Type} (textures : List (List Char × τ)) : Faces τ :=
  let top_tex := pick_by_keys textures TOP_KEYS
  let bottom_tex := pick_by_keys textures BOTTOM_KEYS
  let side_tex := pick_by_keys textures SIDE_KEYS
  let north := pick_by_keys textures NORTH_KEYS
  let south := pick_by_keys textures SOUTH_KEYS
  let east := pick_by_keys textures EAST_KEYS
  let west := pick_by_keys textures WEST_KEYS
  { top := top_tex, bottom := bottom_tex,
    left := if side_tex.isSome then side_tex else pyOr west (pyOr south (pyOr east north)),
    right := if side_tex.isSome then side_tex else pyOr east (pyOr north (pyOr west south)) }

/-- Lines 73-75 of `find_faces`: `if not any(faces.values())`, bind all four
slots to `next(iter(textures.values()))`, the first inserted texture.
On an empty `textures` the Python raises `StopIteration` there; the model
returns `f` unchanged, and every theorem about this branch assumes a
non-empty mapping. -/
def facesFallback {τ : Type} (textures : List (List Char × τ)) (f : Faces τ) : Faces τ :=
  if f.top.isNone && f.bottom.isNone && f.left.isNone && f.right.isNone then
    match textures.head? with
    | some sp => ⟨some sp.2, some sp.2, some sp.2, some sp.2⟩
    | none => f
  else f

/-- Lines 77-80 of `find_faces`: fill every still-`None` slot with
`faces["top"] or faces["left"] or faces["right"] or faces["bottom"]`. -/
def facesFill {τ : Type} (f : Faces τ) : Faces τ :=
  let base_tex := pyOr f.top (pyOr f.left (pyOr f.right f.bottom))
  ⟨pyOr f.top base_tex, pyOr f.bottom base_tex,
    pyOr f.left base_tex, pyOr f.right base_tex⟩

/-- `find_faces(textures)` (lines 51-81): the three steps above in the
source's order. -/
def find_faces {τ : Type} (textures : List (List Char × τ)) : Faces τ :=
  facesFill (facesFallback textures (facesStep1 textures))

/-- The slot `o` is bound to some image location appearing in the texture
mapping `S`. -/
def SlotFrom {τ : Type} (o : Option τ) (S : List (List Char × τ)) : Prop :=
  ∃ p, o = some p ∧ ∃ st, (st, p) ∈ S

/-- The face-suffix alternation of the grouping regex (line 169), in the
regex's alternation order. -/
def faceSuffixTokens : List (List Char) :=
  ["top".toList, "bottom".toList, "side".toList, "north".toList,
   "south".toList, "east".toList, "west".toList]

/-- Model of `re.sub(r"(_(top|bottom|side|north|south|east|west))$", "", stem)`
(line 169 of `main`): the pattern is anchored at the end of the string and
requires a literal underscore before the token, so the substitution removes
`_token` exactly when `stem` ends with an underscore followed by one of the
seven tokens, and leaves `stem` unchanged otherwise.  (At most one token
can match, because no token contains an underscore; `find?` over the tokens
in the regex's alternation order is therefore faithful.) -/
def stripBase (stem : List Char) : List Char :=
  match faceSuffixTokens.find? (fun t => List.isSuffixOf ('_' :: t) stem) with
  | some t => stem.take (stem.length - (t.length + 1))
  | none => stem

/-!
## Image model

`make_iso_cube` (lines 83-129) manipulates PIL images.  The embedding
models an RGBA image as a size plus a total pixel function and each PIL
primitive the script calls as an executable function on that
representation, following Pillow's documented/source semantics:

* nearest-neighbour sampling maps every output pixel centre through the
  inverse transform and truncates (pixel-centre convention);
* coordinates that fall outside the source image read as transparent
  black `(0,0,0,0)` (Pillow's default fill);
* `rotate(45, expand=True)` uses `√2/2`, an irrational number Pillow
  approximates with machine floats; the model uses the rational
  `70711/100000`.  No theorem below depends on the exact sampling phase,
  the expanded size, or the float rounding of the constants — only on the
  facts that every output pixel is a sample of the source (or the fill)
  and that the computed sizes are what the script's integer arithmetic
  produces.
-/

/-- An RGBA pixel; channels are byte values (`≤ 255` under `Pix.Valid`). -/
structure Pix where
  r : Nat
  g : Nat
  b : Nat
  a : Nat
deriving Repr, DecidableEq

/-- Transparent black, Pillow's fill for RGBA. -/
def Pix.zero : Pix := ⟨0, 0, 0, 0⟩

/-- All four channels are bytes. -/
def Pix.Valid (p : Pix) : Prop := p.r ≤ 255 ∧ p.g ≤ 255 ∧ p.b ≤ 255 ∧ p.a ≤ 255

/-- An RGBA image: a width, a height, and a total pixel function (pixels
outside `w × h` are only ever read through `Img.getPx`, which applies
Pillow's transparent fill). -/
structure Img where
  w : Nat
  h : Nat
  px : Nat → Nat → Pix

/-- Read a pixel at signed coordinates; out-of-range reads yield Pillow's
transparent-black fill. -/
def Img.getPx (im : Img) (x y : Int) : Pix :=
  if 0 ≤ x ∧ x < im.w ∧ 0 ≤ y ∧ y < im.h then im.px x.toNat y.toNat else Pix.zero

/-- Every pixel of the function is a byte quadruple. -/
def Img.Valid (im : Img) : Prop := ∀ x y, (im.px x y).Valid

/-- `Image.new("RGBA", (w, h), (0,0,0,0))` (lines 40 and 113). -/
def Image_new (w h : Nat) : Img := ⟨w, h, fun _ _ => Pix.zero⟩

/-- Model of `nearest_resize` (lines 33-34), i.e. PIL
`Image.resize((w,h), NEAREST)`: output pixel `(x,y)` samples the source at
`(⌊(x+½)·srcW/w⌋, ⌊(y+½)·srcH/h⌋)`. -/
def nearest_resize (img : Img) (w h : Nat) : Img :=
  { w := w, h := h,
    px := fun x y =>
      img.getPx (((2 * x + 1) * img.w) / (2 * w) : Nat) (((2 * y + 1) * img.h) / (2 * h) : Nat) }

/-- Model of PIL `Image.rotate(45, NEAREST, expand=True)` (line 88): the
expanded square has side `⌈(w+h)·√2/2⌉` and each output pixel centre is
inverse-rotated about the centre and truncated, with `√2/2 ≈ 70711/100000`.
No theorem depends on the sampling phase or the exact expanded size. -/
def rotate45expand (img : Img) : Img :=
  let n : Nat := ((img.w + img.h) * 70711 + 99999) / 100000
  { w := n, h := n,
    px := fun x y =>
      let dx : Int := 2 * (x : Int) + 1 - (n : Int)
      let dy : Int := 2 * (y : Int) + 1 - (n : Int)
      img.getPx (Int.fdiv (70711 * (dx + dy) + 100000 * (img.w : Int)) 200000)
        (Int.fdiv (70711 * (dy - dx) + 100000 * (img.h : Int)) 200000) }

/-- Model of `Image.transform((w,h), AFFINE, (1, sh, 0, 0, 0.5, 0), NEAREST)`
(lines 97-99 and 106-108) for shear `sh = shNum/2` (`shNum = -1` for the
left face, `+1` for the right face): PIL's affine data maps output to input
coordinates, so output `(x,y)` samples the source at
`(⌊(x+½) + sh·(y+½)⌋, ⌊(y+½)/2⌋)`; out-of-range samples read the
transparent fill. -/
def shear_transform (img : Img) (w h : Nat) (shNum : Int) : Img :=
  { w := w, h := h,
    px := fun x y =>
      img.getPx (Int.fdiv (2 * (2 * (x : Int) + 1) + shNum * (2 * (y : Int) + 1)) 4)
        (Int.fdiv (2 * (y : Int) + 1) 4) }

/-- Model of `brighten(img, factor)` (lines 36-37) for `factor = num/100`:
`ImageEnhance.Brightness(img).enhance(factor)` blends the image towards a
black image that carries the original alpha band, so each colour channel
becomes `⌊c·num/100⌋` (Pillow's float product truncates) and the alpha
channel is preserved. -/
def brighten (img : Img) (num : Nat) : Img :=
  { w := img.w, h := img.h,
    px := fun x y =>
      let p := img.px x y
      ⟨p.r * num / 100, p.g * num / 100, p.b * num / 100, p.a⟩ }

/-- Pillow's `MULDIV255` macro, an exact-integer approximation of
`a·b/255` used by masked `paste`. -/
def muldiv255 (a b : Nat) : Nat :=
  let t := a * b + 128
  (t / 256 + t) / 256

/-- Pillow's `SHIFTFORDIV255` macro. -/
def shiftfordiv255 (x : Nat) : Nat := (x / 256 + x) / 256

/-- Model of Pillow `Image.alpha_composite` on one pixel (AlphaComposite.c,
`PRECISION_BITS = 7`): source-over compositing in premultiplied integer
arithmetic; a fully transparent source leaves the destination pixel. -/
def alphaCompPix (dst src : Pix) : Pix :=
  if src.a = 0 then dst
  else
    let blend := dst.a * (255 - src.a)
    let outa255 := src.a * 255 + blend
    let coef1 := src.a * 255 * 255 * 128 / outa255
    let coef2 := 255 * 128 - coef1
    ⟨shiftfordiv255 (src.r * coef1 + dst.r * coef2 + 128 * 128) / 128,
     shiftfordiv255 (src.g * coef1 + dst.g * coef2 + 128 * 128) / 128,
     shiftfordiv255 (src.b * coef1 + dst.b * coef2 + 128 * 128) / 128,
     shiftfordiv255 (outa255 + 128)⟩

/-- One pixel of `tmp` in the script's `alpha_composite` helper (lines
39-42): `tmp.paste(src, offset, src)` pastes `src` onto a fully transparent
canvas using `src`'s own alpha band as mask, so every channel — the alpha
band included — is blended from 0 with weight `a`, i.e. `MULDIV255(c, a)`;
outside the pasted region `tmp` stays transparent (and indeed the formula
yields `(0,0,0,0)` there because out-of-range reads are transparent). -/
def pastePix (src : Img) (ox oy : Int) (x y : Nat) : Pix :=
  let s := src.getPx ((x : Int) - ox) ((y : Int) - oy)
  ⟨muldiv255 s.r s.a, muldiv255 s.g s.a, muldiv255 s.b s.a, muldiv255 s.a s.a⟩

/-- Model of the script's `alpha_composite(dest, src, offset)` (lines
39-42): build the masked temporary and `Image.alpha_composite` it over
`dest`. -/
def alpha_composite (dest src : Img) (ox oy : Int) : Img :=
  { w := dest.w, h := dest.h,
    px := fun x y => alphaCompPix (dest.px x y) (pastePix src ox oy x y) }

/-- Lines 84, 88-90 of `make_iso_cube`: resize the top face to
`size × size`, rotate it 45° with expansion, then compress the result to
`max 1 ⌊h/2⌋` of its height (`int(top_h * 0.5)` truncates). -/
def top_iso_of (timg : Img) (size : Nat) : Img :=
  let top_rot := rotate45expand (nearest_resize timg size size)
  nearest_resize top_rot top_rot.w (max 1 (top_rot.h / 2))

/-- Lines 85, 92-100: the left face sheared by `-0.5` into a
`int(size + 0.5·size) × int(0.5·size)` image and darkened to 92 %. -/
def left_iso_of (limg : Img) (size : Nat) : Img :=
  brighten (shear_transform (nearest_resize limg size size)
    (size + size / 2) (size / 2) (-1)) 92

/-- Lines 86, 102-109: the right face sheared by `+0.5` and darkened
to 82 %. -/
def right_iso_of (rimg : Img) (size : Nat) : Img :=
  brighten (shear_transform (nearest_resize rimg size size)
    (size + size / 2) (size / 2) 1) 82

/-- Lines 111-124 of `make_iso_cube`: allocate the transparent canvas
(width the sum of the three piece widths, height top height + the taller
side), position the pieces exactly as the script's integer arithmetic
does, and composite left, then right, then top. -/
def isoCanvas (top_img left_img right_img : Img) (size : Nat) : Img :=
  let top_iso := top_iso_of top_img size
  let left_iso := left_iso_of left_img size
  let right_iso := right_iso_of right_img size
  let canvas_w := top_iso.w + left_iso.w + right_iso.w
  let canvas_h := top_iso.h + max left_iso.h right_iso.h
  let canvas := Image_new canvas_w canvas_h
  let top_x : Int := ((canvas_w - top_iso.w) / 2 : Nat)
  let left_x : Int := top_x - ((left_iso.w / 2 : Nat) : Int)
  let left_y : Int := (top_iso.h : Int) - 1
  let right_x : Int := top_x + (top_iso.w : Int) - ((right_iso.w / 2 : Nat) : Int)
  let right_y : Int := (top_iso.h : Int) - 1
  alpha_composite
    (alpha_composite (alpha_composite canvas left_iso left_x left_y)
      right_iso right_x right_y)
    top_iso top_x 0

/-- A pixel within bounds that is not `(0,0,0,0)` — what PIL `getbbox`
counts as non-zero. -/
def Img.nonzero (im : Img) (x y : Nat) : Bool :=
  decide (x < im.w) && decide (y < im.h) && decide (im.px x y ≠ Pix.zero)

/-- The columns containing a non-zero pixel, in increasing order. -/
def Img.nzCols (im : Img) : List Nat :=
  (List.range im.w).filter fun x => (List.range im.h).any fun y => im.nonzero x y

/-- The rows containing a non-zero pixel, in increasing order. -/
def Img.nzRows (im : Img) : List Nat :=
  (List.range im.h).filter fun y => (List.range im.w).any fun x => im.nonzero x y

/-- Model of PIL `Image.getbbox()` (line 126): the bounding box
`(left, upper, right, lower)` of the non-zero pixels, with `right`/`lower`
exclusive; `None` when the image has no non-zero pixel. -/
def Img.getbbox (im : Img) : Option (Nat × Nat × Nat × Nat) :=
  match im.nzCols.head?, im.nzCols.getLast?, im.nzRows.head?, im.nzRows.getLast? with
  | some x0, some x1, some y0, some y1 => some (x0, y0, x1 + 1, y1 + 1)
  | _, _, _, _ => none

/-- Model of PIL `Image.crop((l,u,r,lo))` (line 128). -/
def Img.crop (im : Img) (l u r lo : Nat) : Img :=
  { w := r - l, h := lo - u,
    px := fun x y =>
      if x < r - l ∧ y < lo - u then im.getPx ((l + x : Nat) : Int) ((u + y : Nat) : Int)
      else Pix.zero }

/-- Lines 126-129 of `make_iso_cube`: `bbox = canvas.getbbox()`, crop when
`bbox` is truthy, otherwise return the canvas unchanged (`None` is the only
falsy value `getbbox` can produce for a non-degenerate image). -/
def cropToBbox (canvas : Img) : Img :=
  match canvas.getbbox with
  | some (l, u, r, lo) => canvas.crop l u r lo
  | none => canvas

/-- `make_iso_cube(top_img, left_img, right_img, size)` (lines 83-129):
build the composite canvas, then crop it to the bounding box of its
non-zero pixels. -/
def make_iso_cube (top_img left_img right_img : Img) (size : Nat) : Img :=
  cropToBbox (isoCanvas top_img left_img right_img size)

/-- Total red+green+blue mass of an image — the "brightness of a region"
used to state claim C8's region comparison. -/
def Img.rgbSum (im : Img) : Nat :=
  ((List.range im.w).map fun x =>
    ((List.range im.h).map fun y =>
      (im.px x y).r + (im.px x y).g + (im.px x y).b).sum).sum

/-- A fully transparent 4×4 input face. -/
def clearImg : Img := ⟨4, 4, fun _ _ => Pix.zero⟩

/-- A fully opaque black 4×4 input face (e.g. a black stone texture). -/
def blackImg : Img := ⟨4, 4, fun _ _ => ⟨0, 0, 0, 255⟩⟩

/-- A fully opaque white 4×4 input face. -/
def whiteImg : Img := ⟨4, 4, fun _ _ => ⟨255, 255, 255, 255⟩⟩

/-- A 4×4 face that is opaque red on its bottom row (`y = 3`) and fully
transparent elsewhere. -/
def bottomRowImg : Img := ⟨4, 4, fun _ y => if y = 3 then ⟨255, 0, 0, 255⟩ else Pix.zero⟩

/-!
## Collector, grouper, job runner and driver prologue

The remaining definitions model `collect_textures_in_moddir` and `main`
(lines 131-203).  Filesystem interaction is made explicit: the list of
files a directory scan returns (in whatever order the OS hands them back),
a `load` function for decoding a texture file (which may fail), a `save`
function for writing an output (which may fail), and a set of existing
directories for the prologue's `mkdir`/`exists` calls. -/

/-- The final component of a path string (`Path.name`). -/
def pathName (p : String) : String := (p.splitOn "/").getLastD ""

/-- The index of the dot starting `Path.suffix`: `pathlib` uses
`i = name.rfind('.')` only when `0 < i < len(name) - 1`. -/
def lastSuffixDot (name : List Char) : Option Nat :=
  ((List.range name.length).filter fun i =>
    (name.get? i == some '.') && decide (0 < i) && decide (i < name.length - 1)).getLast?

/-- `Path.stem` (line 137): the final component without its last suffix. -/
def pathStem (p : String) : List Char :=
  let name := (pathName p).toList
  match lastSuffixDot name with
  | some i => name.take i
  | none => name

/-- `p.stem.lower()` (line 137). -/
def lowerStem (p : String) : List Char := (pathStem p).map Char.toLower

/-- Insertion-ordered `dict` update `d[k] = v`: replace the value of an
existing key in place (the key keeps its original position) or append a
new key. -/
def insertLWW {κ ν : Type} [BEq κ] (acc : List (κ × ν)) (k : κ) (v : ν) :
    List (κ × ν) :=
  if acc.any (fun kv => kv.1 == k) then
    acc.map (fun kv => if kv.1 == k then (k, v) else kv)
  else acc ++ [(k, v)]

/-- `collect_textures_in_moddir(moddir)` (lines 131-138): take the mod
directory's `*.png` files in whatever order the OS enumerates them (the
`files` argument), `sorted(...)` them, skip names ending in `.png.mcmeta`
(a check that is unreachable after the `*.png` glob, kept faithfully), and
build `{p.stem.lower(): p}` in insertion order with last write wins.
`sorted` on `Path` values is modelled as lexicographic order on the full
path string. -/
def collect_textures_in_moddir (files : List String) : List (List Char × String) :=
  let pngs := files.filter fun p => (pathName p).endsWith ".png"
  let sortedPngs := pngs.mergeSort fun a b => decide (a ≤ b)
  sortedPngs.foldl
    (fun acc p =>
      if (pathName p).endsWith ".png.mcmeta" then acc
      else insertLWW acc (lowerStem p) p)
    []

/-- One step of `groups.setdefault(base, {})[stem] = path` (line 170). -/
def insertGroup (gs : List (List Char × List (List Char × String)))
    (base stem : List Char) (path : String) :
    List (List Char × List (List Char × String)) :=
  if gs.any (fun g => g.1 == base) then
    gs.map (fun g => if g.1 == base then (g.1, insertLWW g.2 stem path) else g)
  else gs ++ [(base, [(stem, path)])]

/-- Lines 167-170: cluster a texture mapping into groups keyed by the
suffix-stripped base identifier. -/
def buildGroups (textures : List (List Char × String)) :
    List (List Char × List (List Char × String)) :=
  textures.foldl (fun gs sp => insertGroup gs (stripBase sp.1) sp.1 sp.2) []

/-- One entry of the `jobs` list (line 172): mod name, base identifier and
the group's texture map. -/
structure Job where
  modid : String
  base : List Char
  texmap : List (List Char × String)

/-- `out_mod / f"{base}.png"` (lines 193-195), relative to the output
root. -/
def out_path (modid : String) (base : List Char) : String :=
  modid ++ "/" ++ String.mk base ++ ".png"

/-- Lines 163-172 for one mod directory: its jobs.  A mod with no textures
contributes no jobs (the `if not textures: continue` and an empty grouping
coincide). -/
def jobsOfMod (modname : String) (files : List String) : List Job :=
  (buildGroups (collect_textures_in_moddir files)).map fun bt => ⟨modname, bt.1, bt.2⟩

/-- The full `jobs` list over the scanned mod directories (line 162-172),
in scan order. -/
def jobsOf (mods : List (String × List String)) : List Job :=
  mods.flatMap fun m => jobsOfMod m.1 m.2

/-- The warning printed for a failed job (line 188). -/
def warnMsg (j : Job) (e : String) : String :=
  "[WARN] Chargement textures echoue pour " ++ j.modid ++ ":" ++ String.mk j.base
    ++ " -> " ++ e

/-- Lines 184-186: the `try` block loads the three face textures in order;
a `None` slot would make `load_png(None)` raise a `TypeError`, which the
same `except Exception` catches. -/
def loadFaces (load : String → Except String Img) (faces : Faces String) :
    Except String (Img × Img × Img) :=
  match faces.top with
  | none => .error "TypeError"
  | some pt =>
    match load pt with
    | .error e => .error e
    | .ok ti =>
      match faces.left with
      | none => .error "TypeError"
      | some pl =>
        match load pl with
        | .error e => .error e
        | .ok li =>
          match faces.right with
          | none => .error "TypeError"
          | some pr =>
            match load pr with
            | .error e => .error e
            | .ok ri => .ok (ti, li, ri)

/-- The render loop of `main` (lines 180-200).  `load` models `load_png`
(decoding may fail), `save` models `iso.save` (writing may fail).  Only
the three loads sit inside the `try`: a load failure prints a warning,
counts the job as done and continues with the next job; a failure while
saving — after the `try` — propagates and aborts the whole loop, modelled
by the `Except.error` result.  Returns `(done, warnings, outputs)`. -/
def runJobs (size : Nat) (load : String → Except String Img)
    (save : String → Img → Except String Unit) :
    List Job → Nat → List String → List (String × Img) →
    Except String (Nat × List String × List (String × Img))
  | [], done, warns, outs => .ok (done, warns, outs)
  | j :: rest, done, warns, outs =>
    match loadFaces load (find_faces j.texmap) with
    | .error e => runJobs size load save rest (done + 1) (warns ++ [warnMsg j e]) outs
    | .ok (ti, li, ri) =>
      let iso := make_iso_cube ti li ri size
      match save (out_path j.modid j.base) iso with
      | .error e => .error e
      | .ok _ => runJobs size load save rest (done + 1) warns
          (outs ++ [(out_path j.modid j.base, iso)])

/-- The warning one job contributes in a run whose saves all succeed. -/
def warnOf (load : String → Except String Img) (j : Job) : Option String :=
  match loadFaces load (find_faces j.texmap) with
  | .error e => some (warnMsg j e)
  | .ok _ => none

/-- The output one job contributes in a run whose saves all succeed. -/
def outOf (size : Nat) (load : String → Except String Img) (j : Job) :
    Option (String × Img) :=
  match loadFaces load (find_faces j.texmap) with
  | .error _ => none
  | .ok (ti, li, ri) => some (out_path j.modid j.base, make_iso_cube ti li ri size)

/-- Loading a bound slot for the pure determinism view; an unbound slot
(impossible for the non-empty groups the pipeline builds, cf. C1, where
Python would raise) is modelled as an empty image. -/
def loadSlot (load : String → Img) : Option String → Img
  | some p => load p
  | none => Image_new 0 0

/-- One job's work as a pure value — output path, face assignment and
rendered image — with `load` the fixed decoded content of each texture
file. -/
def renderJob (load : String → Img) (size : Nat) (j : Job) :
    String × Faces String × Img :=
  let faces := find_faces j.texmap
  (out_path j.modid j.base, faces,
    make_iso_cube (loadSlot load faces.top) (loadSlot load faces.left)
      (loadSlot load faces.right) size)

/-- Everything one run of the pipeline produces, job by job. -/
def pipelineOutputs (load : String → Img) (size : Nat)
    (mods : List (String × List String)) : List (String × Faces String × Img) :=
  (jobsOf mods).map (renderJob load size)

/-- A resolved absolute directory path, as its component list. -/
abbrev DirPath := List String

/-- `Path.mkdir(parents=True, exist_ok=True)` (line 151): afterwards the
directory and each of its ancestors exist; creating an existing directory
is a no-op (membership below is set-like, duplicates are harmless). -/
def mkdirParents (dirs : List DirPath) (p : DirPath) : List DirPath :=
  dirs ++ (List.range p.length).map fun i => p.take (i + 1)

/-- Outcome of the driver prologue. -/
inductive StartupOutcome
  | missingRoot
  | proceeded
deriving Repr, DecidableEq

/-- Lines 149-155 of `main`: create the output root (with parents), then
test `blocks_root.exists()` — against the filesystem as the `mkdir` left
it — and stop with the missing-root message when the test fails. -/
def mainStartup (dirs : List DirPath) (blocks_root out_root : DirPath) :
    List DirPath × StartupOutcome :=
  let dirs1 := mkdirParents dirs out_root
  if blocks_root ∈ dirs1 then (dirs1, .proceeded) else (dirs1, .missingRoot)

/-! ## Theorems -/

theorem pyOr_eq_some {τ : Type} (a b : Option τ) (c : τ) :
    pyOr a b = some c ↔ a = some c ∨ (a = none ∧ b = some c) := by
  cases a <;> simp [pyOr]

theorem pick_by_keys_mem {τ : Type} {textures : List (List Char × τ)}
    {keys : List (List Char)} {p : τ} (h : pick_by_keys textures keys = some p) :
    ∃ st, (st, p) ∈ textures := by
  induction textures with
  | nil => exact absurd h (by simp [pick_by_keys])
  | cons hd tl ih =>
    obtain ⟨stem, q⟩ := hd
    rw [pick_by_keys] at h
    split at h
    · cases h
      exact ⟨stem, List.mem_cons_self _ _⟩
    · obtain ⟨st, hst⟩ := ih h
      exact ⟨st, List.mem_cons_of_mem _ hst⟩

theorem facesStep1_from {τ : Type} (textures : List (List Char × τ)) :
    (∀ p, (facesStep1 textures).top = some p → ∃ st, (st, p) ∈ textures)
    ∧ (∀ p, (facesStep1 textures).bottom = some p → ∃ st, (st, p) ∈ textures)
    ∧ (∀ p, (facesStep1 textures).left = some p → ∃ st, (st, p) ∈ textures)
    ∧ (∀ p, (facesStep1 textures).right = some p → ∃ st, (st, p) ∈ textures) := by
  refine ⟨fun p hp => pick_by_keys_mem hp, fun p hp => pick_by_keys_mem hp, ?_, ?_⟩ <;>
    intro p hp <;> simp only [facesStep1] at hp
  · split at hp
    · exact pick_by_keys_mem hp
    · rcases (pyOr_eq_some _ _ _).1 hp with h | ⟨_, h⟩
      · exact pick_by_keys_mem h
      rcases (pyOr_eq_some _ _ _).1 h with h' | ⟨_, h'⟩
      · exact pick_by_keys_mem h'
      rcases (pyOr_eq_some _ _ _).1 h' with h'' | ⟨_, h''⟩ <;> exact pick_by_keys_mem h''
  · split at hp
    · exact pick_by_keys_mem hp
    · rcases (pyOr_eq_some _ _ _).1 hp with h | ⟨_, h⟩
      · exact pick_by_keys_mem h
      rcases (pyOr_eq_some _ _ _).1 h with h' | ⟨_, h'⟩
      · exact pick_by_keys_mem h'
      rcases (pyOr_eq_some _ _ _).1 h' with h'' | ⟨_, h''⟩ <;> exact pick_by_keys_mem h''

theorem facesFallback_cond {τ : Type} (f : Faces τ) :
    (f.top.isNone && f.bottom.isNone && f.left.isNone && f.right.isNone) = true
      ↔ f.top = none ∧ f.bottom = none ∧ f.left = none ∧ f.right = none := by
  simp [Bool.and_eq_true, Option.isNone_iff_eq_none, and_assoc]

theorem facesFallback_of_ne {τ : Type} (textures : List (List Char × τ)) (f : Faces τ)
    (h : ¬ (f.top = none ∧ f.bottom = none ∧ f.left = none ∧ f.right = none)) :
    facesFallback textures f = f := by
  rw [facesFallback, if_neg]
  intro hb
  exact h ((facesFallback_cond f).1 hb)

theorem facesFallback_of_all_none {τ : Type} (s : List Char) (v : τ)
    (rest : List (List Char × τ)) (f : Faces τ)
    (h1 : f.top = none) (h2 : f.bottom = none) (h3 : f.left = none) (h4 : f.right = none) :
    facesFallback ((s, v) :: rest) f = ⟨some v, some v, some v, some v⟩ := by
  rw [facesFallback, if_pos ((facesFallback_cond f).2 ⟨h1, h2, h3, h4⟩)]
  rfl

theorem facesFill_from {τ : Type} (f : Faces τ) (S : List (List Char × τ))
    (htop : ∀ p, f.top = some p → ∃ st, (st, p) ∈ S)
    (hbot : ∀ p, f.bottom = some p → ∃ st, (st, p) ∈ S)
    (hleft : ∀ p, f.left = some p → ∃ st, (st, p) ∈ S)
    (hright : ∀ p, f.right = some p → ∃ st, (st, p) ∈ S)
    (hne : ¬ (f.top = none ∧ f.bottom = none ∧ f.left = none ∧ f.right = none)) :
    SlotFrom (facesFill f).top S ∧ SlotFrom (facesFill f).bottom S
    ∧ SlotFrom (facesFill f).left S ∧ SlotFrom (facesFill f).right S := by
  obtain ⟨t, b, l, r⟩ := f
  rcases t with _ | pt <;> rcases b with _ | pb <;> rcases l with _ | pl <;> rcases r with _ | pr <;>
    simp_all [facesFill, pyOr, SlotFrom]

/-- Claim C1: for every non-empty texture mapping, `find_faces` binds each
of the four slots to some image location from the group; and when none of
the seven keyword picks of steps 1-4 matches any candidate, all four slots
are bound to the group's first texture. -/
theorem find_faces_total {τ : Type} (s : List Char) (v : τ)
    (rest : List (List Char × τ)) :
    (SlotFrom (find_faces ((s, v) :: rest)).top ((s, v) :: rest)
      ∧ SlotFrom (find_faces ((s, v) :: rest)).bottom ((s, v) :: rest)
      ∧ SlotFrom (find_faces ((s, v) :: rest)).left ((s, v) :: rest)
      ∧ SlotFrom (find_faces ((s, v) :: rest)).right ((s, v) :: rest))
    ∧ (pick_by_keys ((s, v) :: rest) TOP_KEYS = none →
        pick_by_keys ((s, v) :: rest) BOTTOM_KEYS = none →
        pick_by_keys ((s, v) :: rest) SIDE_KEYS = none →
        pick_by_keys ((s, v) :: rest) NORTH_KEYS = none →
        pick_by_keys ((s, v) :: rest) SOUTH_KEYS = none →
        pick_by_keys ((s, v) :: rest) EAST_KEYS = none →
        pick_by_keys ((s, v) :: rest) WEST_KEYS = none →
        find_faces ((s, v) :: rest) = ⟨some v, some v, some v, some v⟩) := by
  constructor
  · set tex := (s, v) :: rest with htex
    obtain ⟨h1, h2, h3, h4⟩ := facesStep1_from tex
    by_cases hall : (facesStep1 tex).top = none ∧ (facesStep1 tex).bottom = none
        ∧ (facesStep1 tex).left = none ∧ (facesStep1 tex).right = none
    · obtain ⟨a1, a2, a3, a4⟩ := hall
      have hfb : facesFallback tex (facesStep1 tex) = ⟨some v, some v, some v, some v⟩ :=
        facesFallback_of_all_none s v rest _ a1 a2 a3 a4
      rw [find_faces, hfb]
      refine facesFill_from _ _ ?_ ?_ ?_ ?_ (by simp) <;>
        · intro p hp
          cases hp
          exact ⟨s, List.mem_cons_self _ _⟩
    · rw [find_faces, facesFallback_of_ne tex _ hall]
      exact facesFill_from _ _ h1 h2 h3 h4 hall
  · intro htop hbot hside hnorth hsouth heast hwest
    have hstep : facesStep1 ((s, v) :: rest) = ⟨none, none, none, none⟩ := by
      simp [facesStep1, htop, hbot, hside, hnorth, hsouth, heast, hwest, pyOr]
    simp [find_faces, hstep, facesFallback, facesFill, pyOr]

/-- Witness for C1: a group with the single suffix-less texture `lever`
matches no keyword, and all four slots come back bound to it. -/
theorem find_faces_total_witness :
    find_faces [("lever".toList, 0)] = ⟨some 0, some 0, some 0, some 0⟩ :=
  (find_faces_total "lever".toList 0 []).2 (by decide) (by decide) (by decide)
    (by decide) (by decide) (by decide) (by decide)

/-- Claim C4: a side-keyword match binds both left and right to that same
candidate; otherwise left is the first present of west, south, east, north
and right the first present of east, north, west, south (the `or` chains of
lines 70-71). -/
theorem find_faces_side_binding {τ : Type} (textures : List (List Char × τ)) :
    (∀ p, pick_by_keys textures SIDE_KEYS = some p →
        (find_faces textures).left = some p ∧ (find_faces textures).right = some p)
    ∧ (pick_by_keys textures SIDE_KEYS = none →
        (∀ p, pyOr (pick_by_keys textures WEST_KEYS)
            (pyOr (pick_by_keys textures SOUTH_KEYS)
              (pyOr (pick_by_keys textures EAST_KEYS)
                (pick_by_keys textures NORTH_KEYS))) = some p →
          (find_faces textures).left = some p)
        ∧ (∀ p, pyOr (pick_by_keys textures EAST_KEYS)
            (pyOr (pick_by_keys textures NORTH_KEYS)
              (pyOr (pick_by_keys textures WEST_KEYS)
                (pick_by_keys textures SOUTH_KEYS))) = some p →
          (find_faces textures).right = some p)) := by
  constructor
  · intro p hside
    have hstep : (facesStep1 textures).left = some p ∧ (facesStep1 textures).right = some p := by
      constructor <;> simp [facesStep1, hside]
    rw [find_faces, facesFallback_of_ne _ _ (fun h => by rw [hstep.1] at h; exact absurd h.2.2.1 (by simp))]
    simp [facesFill, hstep.1, hstep.2, pyOr]
  · intro hside
    constructor
    · intro p hchain
      have hstep : (facesStep1 textures).left = some p := by
        simp [facesStep1, hside, hchain]
      rw [find_faces, facesFallback_of_ne _ _ (fun h => by rw [hstep] at h; exact absurd h.2.2.1 (by simp))]
      simp [facesFill, hstep, pyOr]
    · intro p hchain
      have hstep : (facesStep1 textures).right = some p := by
        simp [facesStep1, hside, hchain]
      rw [find_faces, facesFallback_of_ne _ _ (fun h => by rw [hstep] at h; exact absurd h.2.2.2 (by simp))]
      rcases hl : (facesStep1 textures).left with _ | q <;>
        simp [facesFill, hstep, hl, pyOr]

/-- Witness for C4: with `stone_side` and `stone_top` both left and right
bind to `stone_side`; with only the four directional textures, left binds
to `stone_west` and right to `stone_east`. -/
theorem find_faces_side_binding_witness :
    ((find_faces [("stone_side".toList, 0), ("stone_top".toList, 1)]).left = some 0
      ∧ (find_faces [("stone_side".toList, 0), ("stone_top".toList, 1)]).right = some 0)
    ∧ ((find_faces [("stone_north".toList, 0), ("stone_south".toList, 1),
          ("stone_east".toList, 2), ("stone_west".toList, 3)]).left = some 3
      ∧ (find_faces [("stone_north".toList, 0), ("stone_south".toList, 1),
          ("stone_east".toList, 2), ("stone_west".toList, 3)]).right = some 2) := by
  refine ⟨(find_faces_side_binding _).1 0 (by decide), ?_, ?_⟩
  · exact ((find_faces_side_binding _).2 (by decide)).1 3 (by decide)
  · exact ((find_faces_side_binding _).2 (by decide)).2 2 (by decide)

theorem boundaryEnd_iff (l : List Char) :
    boundaryEnd l = true ↔ (l = [] ∨ ∃ c, l.getLast? = some c ∧ isDelim c = true) := by
  cases hl : l.getLast? with
  | none => simp [boundaryEnd, hl, List.getLast?_eq_none_iff.1 hl]
  | some c =>
    constructor
    · intro h
      exact Or.inr ⟨c, rfl, by simpa [boundaryEnd, hl] using h⟩
    · rintro (rfl | ⟨c', hc', hd⟩)
      · simp at hl
      · cases hc'
        simp [boundaryEnd, hl, hd]

theorem boundaryStart_iff (l : List Char) :
    boundaryStart l = true ↔ (l = [] ∨ ∃ c, l.head? = some c ∧ isDelim c = true) := by
  cases hl : l.head? with
  | none => simp [boundaryStart, hl, List.head?_eq_none_iff.1 hl]
  | some c =>
    constructor
    · intro h
      exact Or.inr ⟨c, rfl, by simpa [boundaryStart, hl] using h⟩
    · rintro (rfl | ⟨c', hc', hd⟩)
      · simp at hl
      · cases hc'
        simp [boundaryStart, hl, hd]

theorem tokenMatch_iff (k stem : List Char) :
    tokenMatch k stem = true ↔ DelimitedOccurrence k stem := by
  rw [tokenMatch, List.any_eq_true]
  constructor
  · rintro ⟨i, hi, hb⟩
    rw [List.mem_range] at hi
    simp only [Bool.and_eq_true, beq_iff_eq] at hb
    obtain ⟨⟨h1, h2⟩, h3⟩ := hb
    refine ⟨stem.take i, stem.drop (i + k.length), ?_, ?_, ?_⟩
    · conv_lhs => rw [← List.take_append_drop i stem]
      rw [← List.take_append_drop k.length (stem.drop i), h2, List.drop_drop,
        List.append_assoc]
    · rcases (boundaryEnd_iff _).1 h1 with h | h
      · exact Or.inl h
      · exact Or.inr h
    · rcases (boundaryStart_iff _).1 h3 with h | h
      · exact Or.inl h
      · exact Or.inr h
  · rintro ⟨pre, post, rfl, hpre, hpost⟩
    refine ⟨pre.length, ?_, ?_⟩
    · rw [List.mem_range]
      have : pre.length ≤ (pre ++ k ++ post).length := by
        simp only [List.length_append]
        omega
      omega
    · simp only [Bool.and_eq_true, beq_iff_eq]
      refine ⟨⟨?_, ?_⟩, ?_⟩
      · rw [List.append_assoc, List.take_left]
        exact (boundaryEnd_iff pre).2 hpre
      · rw [List.append_assoc, List.drop_left, List.take_left]
      · rw [show pre.length + k.length = (pre ++ k).length by simp, List.drop_left]
        exact (boundaryStart_iff post).2 hpost

/-- Claim C3: face-keyword matching matches a keyword exactly when it
appears as a whole underscore- or hyphen-delimited segment of the candidate
name (or at a string boundary), never as a mere substring; any
`pick_by_keys` hit therefore stems from a delimited occurrence; in
particular `northlands_block` does not match `north` while `stone_north`
does. -/
theorem tokenMatch_delimiter_sensitive :
    (∀ k stem : List Char, tokenMatch k stem = true ↔ DelimitedOccurrence k stem)
    ∧ (∀ (τ : Type) (textures : List (List Char × τ)) (keys : List (List Char)) (p : τ),
        pick_by_keys textures keys = some p →
          ∃ stem k, (stem, p) ∈ textures ∧ k ∈ keys ∧ DelimitedOccurrence k stem)
    ∧ tokenMatch "north".toList "northlands_block".toList = false
    ∧ tokenMatch "north".toList "stone_north".toList = true := by
  refine ⟨tokenMatch_iff, ?_, by decide, by decide⟩
  intro τ textures keys p h
  induction textures with
  | nil => exact absurd h (by simp [pick_by_keys])
  | cons hd tl ih =>
    obtain ⟨stem, q⟩ := hd
    rw [pick_by_keys] at h
    split at h
    · rename_i hany
      cases h
      rw [List.any_eq_true] at hany
      obtain ⟨k, hk, hm⟩ := hany
      exact ⟨stem, k, List.mem_cons_self _ _, hk, (tokenMatch_iff k stem).1 hm⟩
    · obtain ⟨stem', k, hmem, hk, hd⟩ := ih h
      exact ⟨stem', k, List.mem_cons_of_mem _ hmem, hk, hd⟩

/-- Witness for C3: instantiating the `pick_by_keys` conjunct on a concrete
one-entry mapping. -/
theorem tokenMatch_delimiter_sensitive_witness :
    ∃ stem k, (stem, 0) ∈ [("stone_north".toList, 0)] ∧ k ∈ NORTH_KEYS
      ∧ DelimitedOccurrence k stem :=
  tokenMatch_delimiter_sensitive.2.1 Nat [("stone_north".toList, 0)] NORTH_KEYS 0 (by decide)

theorem suffix_comparable {l1 l2 l : List Char} (h1 : l1 <:+ l) (h2 : l2 <:+ l)
    (hlen : l1.length ≤ l2.length) : l1 <:+ l2 := by
  have hl1 : l1.length ≤ l.length := h1.length_le
  have hl2 : l2.length ≤ l.length := h2.length_le
  rw [List.suffix_iff_eq_drop] at h1 h2
  have : l1 = List.drop (l2.length - l1.length) l2 := by
    rw [h2, List.drop_drop, List.length_drop]
    have harith : l.length - l2.length + (l.length - (l.length - l2.length) - l1.length)
        = l.length - l1.length := by
      omega
    rw [harith, ← h1]
  rw [this]
  exact List.drop_suffix _ _

theorem underscore_token_suffix_unique {pre t t2 : List Char}
    (ht2 : ('_' :: t2) <:+ (pre ++ '_' :: t)) (hne : t2 ≠ t)
    (hu : '_' ∉ t) (hu2 : '_' ∉ t2) : False := by
  have ht : ('_' :: t) <:+ (pre ++ '_' :: t) := List.suffix_append pre ('_' :: t)
  by_cases hlen : ('_' :: t2).length ≤ ('_' :: t).length
  · have hsuf : ('_' :: t2) <:+ ('_' :: t) := suffix_comparable ht2 ht hlen
    rcases List.suffix_cons_iff.1 hsuf with heq | hsuf2
    · exact hne (by injection heq)
    · exact hu (hsuf2.subset (List.mem_cons_self _ _))
  · have hsuf : ('_' :: t) <:+ ('_' :: t2) :=
      suffix_comparable ht ht2 (by omega)
    rcases List.suffix_cons_iff.1 hsuf with heq | hsuf2
    · exact hne (by injection heq; simp_all)
    · exact hu2 (hsuf2.subset (List.mem_cons_self _ _))

theorem find?_eq_some_of_unique {α : Type} {p : α → Bool} {l : List α} {a : α}
    (ha : a ∈ l) (hpa : p a = true) (huniq : ∀ x ∈ l, p x = true → x = a) :
    l.find? p = some a := by
  induction l with
  | nil => cases ha
  | cons hd tl ih =>
    by_cases hp : p hd = true
    · rw [List.find?_cons_of_pos _ hp, huniq hd (List.mem_cons_self _ _) hp]
    · rw [List.find?_cons_of_neg _ hp]
      rcases List.mem_cons.1 ha with rfl | ha2
      · exact absurd hpa hp
      · exact ih ha2 (fun x hx hpx => huniq x (List.mem_cons_of_mem _ hx) hpx)

theorem tokens_no_underscore : ∀ x ∈ faceSuffixTokens, '_' ∉ x := by decide

/-- Claim C2 (amended): the Job Grouper strips a trailing face-suffix token
only when it is preceded by a literal underscore (the underscore is removed
with it); a stem with no underscore-delimited trailing token — e.g. a
hyphen-delimited or whole-name token — is left unchanged, so interior
occurrences are never stripped and only the trailing occurrence is
removed. -/
theorem stripBase_characterization :
    (∀ pre t : List Char, t ∈ faceSuffixTokens → stripBase (pre ++ '_' :: t) = pre)
    ∧ (∀ stem : List Char, (∀ t ∈ faceSuffixTokens, ¬ ('_' :: t) <:+ stem) →
        stripBase stem = stem) := by
  constructor
  · intro pre t ht
    rw [stripBase]
    have hfind : faceSuffixTokens.find?
        (fun t2 => List.isSuffixOf ('_' :: t2) (pre ++ '_' :: t)) = some t := by
      refine find?_eq_some_of_unique ht ?_ ?_
      · exact List.isSuffixOf_iff_suffix.2 (List.suffix_append pre ('_' :: t))
      · intro x hx hpx
        by_contra hne
        exact underscore_token_suffix_unique (List.isSuffixOf_iff_suffix.1 hpx) hne
          (tokens_no_underscore t ht) (tokens_no_underscore x hx)
    rw [hfind]
    show List.take ((pre ++ '_' :: t).length - (t.length + 1)) (pre ++ '_' :: t) = pre
    have hlen : (pre ++ '_' :: t).length - (t.length + 1) = pre.length := by
      simp [List.length_append]
    rw [hlen, show pre ++ '_' :: t = pre ++ ('_' :: t) from rfl, List.take_left]
  · intro stem hnone
    rw [stripBase]
    have hfind : faceSuffixTokens.find?
        (fun t2 => List.isSuffixOf ('_' :: t2) stem) = none := by
      rw [List.find?_eq_none]
      intro x hx hpx
      exact hnone x hx (List.isSuffixOf_iff_suffix.1 hpx)
    rw [hfind]

/-- Witness for the amended C2: `stone_top` groups under base `stone`. -/
theorem stripBase_characterization_witness :
    stripBase ("stone".toList ++ '_' :: "top".toList) = "stone".toList :=
  stripBase_characterization.1 "stone".toList "top".toList (by decide)

/-- Counterexample to claim C2 as stated: the claim would strip a trailing
face token delimited by a hyphen (or standing alone at the string
boundary), but `stripBase "stone-top"` leaves the stem unchanged — the
regex `(_(top|…))$` demands a literal underscore. -/
theorem stripBase_hyphen_counterexample :
    ¬ (∀ pre t : List Char, t ∈ faceSuffixTokens → boundaryEnd pre = true →
        stripBase (pre ++ t) ≠ pre ++ t) := by
  intro h
  exact h "stone-".toList "top".toList (by decide) (by decide) (by decide)


theorem head_filter_range {n : Nat} {p : Nat → Bool} {x : Nat}
    (h : ((List.range n).filter p).head? = some x) :
    p x = true ∧ x < n ∧ ∀ y, y < n → p y = true → x ≤ y := by
  have hmem : x ∈ (List.range n).filter p := List.mem_of_mem_head? (by simp [h])
  have hx := List.mem_filter.1 hmem
  refine ⟨hx.2, List.mem_range.1 hx.1, ?_⟩
  intro y hy hpy
  have hymem : y ∈ (List.range n).filter p :=
    List.mem_filter.2 ⟨List.mem_range.2 hy, hpy⟩
  have hpw : ((List.range n).filter p).Pairwise (· < ·) :=
    (List.pairwise_lt_range n).sublist ((List.range n).filter_sublist)
  rcases hl : (List.range n).filter p with _ | ⟨a, tl⟩
  · rw [hl] at hmem
    cases hmem
  · rw [hl] at h hymem hpw
    have hax : a = x := by
      simpa using h
    subst hax
    rcases List.mem_cons.1 hymem with rfl | hytl
    · exact Nat.le_refl _
    · exact Nat.le_of_lt ((List.pairwise_cons.1 hpw).1 y hytl)

theorem getLast_filter_range {n : Nat} {p : Nat → Bool} {x : Nat}
    (h : ((List.range n).filter p).getLast? = some x) :
    p x = true ∧ x < n ∧ ∀ y, y < n → p y = true → y ≤ x := by
  rw [← List.head?_reverse] at h
  have hmem : x ∈ ((List.range n).filter p).reverse := List.mem_of_mem_head? (by simp [h])
  have hx := List.mem_filter.1 (List.mem_reverse.1 hmem)
  refine ⟨hx.2, List.mem_range.1 hx.1, ?_⟩
  intro y hy hpy
  have hymem : y ∈ ((List.range n).filter p).reverse :=
    List.mem_reverse.2 (List.mem_filter.2 ⟨List.mem_range.2 hy, hpy⟩)
  have hpw : (((List.range n).filter p).reverse).Pairwise (fun a b => b < a) :=
    List.pairwise_reverse.2
      ((List.pairwise_lt_range n).sublist ((List.range n).filter_sublist))
  rcases hl : ((List.range n).filter p).reverse with _ | ⟨a, tl⟩
  · rw [hl] at hmem
    cases hmem
  · rw [hl] at h hymem hpw
    have hax : a = x := by
      simpa using h
    subst hax
    rcases List.mem_cons.1 hymem with rfl | hytl
    · exact Nat.le_refl _
    · exact Nat.le_of_lt ((List.pairwise_cons.1 hpw).1 y hytl)


theorem shiftfordiv255_mono {x y : Nat} (h : x ≤ y) :
    shiftfordiv255 x ≤ shiftfordiv255 y :=
  Nat.div_le_div_right (Nat.add_le_add (Nat.div_le_div_right h) h)

theorem muldiv255_le {a b : Nat} (ha : a ≤ 255) (hb : b ≤ 255) :
    muldiv255 a b ≤ 255 := by
  have ht : a * b + 128 ≤ 65153 := by
    have := Nat.mul_le_mul ha hb
    omega
  calc muldiv255 a b = shiftfordiv255 (a * b + 128) := rfl
    _ ≤ shiftfordiv255 65153 := shiftfordiv255_mono ht
    _ = 255 := by norm_num [shiftfordiv255]

theorem muldiv255_zero_right (a : Nat) : muldiv255 a 0 = 0 := by
  simp [muldiv255]

theorem pixZero_valid : Pix.zero.Valid := by
  refine ⟨?_, ?_, ?_, ?_⟩ <;> simp [Pix.zero]

theorem getPx_valid {im : Img} (h : im.Valid) (x y : Int) : (im.getPx x y).Valid := by
  rw [Img.getPx]
  split
  · exact h _ _
  · exact pixZero_valid

theorem alphaCompPix_valid {d s : Pix} (hd : d.Valid) (hs : s.Valid) :
    (alphaCompPix d s).Valid := by
  rw [alphaCompPix]
  split
  · exact hd
  · rename_i hsa
    obtain ⟨hdr, hdg, hdb, hda⟩ := hd
    obtain ⟨hsr, hsg, hsb, hsa255⟩ := hs
    have houta : s.a * 255 + d.a * (255 - s.a) ≤ 65025 := by
      have h1 : d.a * (255 - s.a) ≤ 255 * (255 - s.a) :=
        Nat.mul_le_mul_right _ hda
      omega
    have houtpos : 255 ≤ s.a * 255 + d.a * (255 - s.a) := by
      have : 1 ≤ s.a := Nat.one_le_iff_ne_zero.2 hsa
      have : 255 ≤ s.a * 255 := by omega
      omega
    have hcoef1 : s.a * 255 * 255 * 128 / (s.a * 255 + d.a * (255 - s.a)) ≤ 32640 := by
      have hnum : s.a * 255 * 255 * 128
          ≤ (s.a * 255 + d.a * (255 - s.a)) * 32640 := by
        have h1 : s.a * 255 ≤ s.a * 255 + d.a * (255 - s.a) := Nat.le_add_right _ _
        calc s.a * 255 * 255 * 128 = (s.a * 255) * 32640 := by ring
          _ ≤ (s.a * 255 + d.a * (255 - s.a)) * 32640 := Nat.mul_le_mul_right _ h1
      calc s.a * 255 * 255 * 128 / (s.a * 255 + d.a * (255 - s.a))
          ≤ (s.a * 255 + d.a * (255 - s.a)) * 32640 / (s.a * 255 + d.a * (255 - s.a)) :=
            Nat.div_le_div_right hnum
        _ = 32640 := Nat.mul_div_cancel_left _ (by omega)
    have hmix : ∀ sc dc : Nat, sc ≤ 255 → dc ≤ 255 →
        shiftfordiv255 (sc * (s.a * 255 * 255 * 128 / (s.a * 255 + d.a * (255 - s.a)))
          + dc * (255 * 128 - s.a * 255 * 255 * 128 / (s.a * 255 + d.a * (255 - s.a)))
          + 128 * 128) / 128 ≤ 255 := by
      intro sc dc hsc hdc
      set c1 := s.a * 255 * 255 * 128 / (s.a * 255 + d.a * (255 - s.a)) with hc1
      have hnum : sc * c1 + dc * (255 * 128 - c1) + 128 * 128 ≤ 8339584 := by
        have h1 : sc * c1 ≤ 255 * c1 := Nat.mul_le_mul_right _ hsc
        have h2 : dc * (255 * 128 - c1) ≤ 255 * (255 * 128 - c1) :=
          Nat.mul_le_mul_right _ hdc
        have h3 : 255 * c1 + 255 * (255 * 128 - c1) = 255 * 255 * 128 := by
          omega
        omega
      have : shiftfordiv255 (sc * c1 + dc * (255 * 128 - c1) + 128 * 128)
          ≤ shiftfordiv255 8339584 := shiftfordiv255_mono hnum
      have h8 : shiftfordiv255 8339584 = 32703 := by norm_num [shiftfordiv255]
      calc shiftfordiv255 (sc * c1 + dc * (255 * 128 - c1) + 128 * 128) / 128
          ≤ 32703 / 128 := Nat.div_le_div_right (by omega)
        _ = 255 := by norm_num
    refine ⟨hmix _ _ hsr hdr, hmix _ _ hsg hdg, hmix _ _ hsb hdb, ?_⟩
    calc shiftfordiv255 (s.a * 255 + d.a * (255 - s.a) + 128)
        ≤ shiftfordiv255 65153 := shiftfordiv255_mono (by omega)
      _ = 255 := by norm_num [shiftfordiv255]

theorem pastePix_valid {src : Img} (hs : src.Valid) (ox oy : Int) (x y : Nat) :
    (pastePix src ox oy x y).Valid := by
  obtain ⟨h1, h2, h3, h4⟩ := getPx_valid hs ((x : Int) - ox) ((y : Int) - oy)
  exact ⟨muldiv255_le h1 h4, muldiv255_le h2 h4, muldiv255_le h3 h4, muldiv255_le h4 h4⟩

theorem alpha_composite_valid {dest src : Img} (hd : dest.Valid) (hs : src.Valid)
    (ox oy : Int) : (alpha_composite dest src ox oy).Valid :=
  fun x y => alphaCompPix_valid (hd x y) (pastePix_valid hs ox oy x y)

theorem nearest_resize_valid {img : Img} (h : img.Valid) (w v : Nat) :
    (nearest_resize img w v).Valid :=
  fun _ _ => getPx_valid h _ _

theorem rotate45expand_valid {img : Img} (h : img.Valid) :
    (rotate45expand img).Valid :=
  fun _ _ => getPx_valid h _ _

theorem shear_transform_valid {img : Img} (h : img.Valid) (w v : Nat) (sh : Int) :
    (shear_transform img w v sh).Valid :=
  fun _ _ => getPx_valid h _ _

theorem brighten_valid {img : Img} (h : img.Valid) {num : Nat} (hnum : num ≤ 100) :
    (brighten img num).Valid := by
  intro x y
  obtain ⟨h1, h2, h3, h4⟩ := h x y
  have hb : ∀ c : Nat, c ≤ 255 → c * num / 100 ≤ 255 := by
    intro c hc
    calc c * num / 100 ≤ 25500 / 100 := Nat.div_le_div_right (Nat.mul_le_mul hc hnum)
      _ = 255 := by norm_num
  exact ⟨hb _ h1, hb _ h2, hb _ h3, h4⟩

theorem Image_new_valid (w v : Nat) : (Image_new w v).Valid :=
  fun _ _ => pixZero_valid

theorem isoCanvas_valid {t l r : Img} (size : Nat)
    (ht : t.Valid) (hl : l.Valid) (hr : r.Valid) :
    (isoCanvas t l r size).Valid := by
  refine alpha_composite_valid (alpha_composite_valid (alpha_composite_valid
    (Image_new_valid _ _) ?_ _ _) ?_ _ _) ?_ _ _
  · exact brighten_valid (shear_transform_valid (nearest_resize_valid hl _ _) _ _ _)
      (by norm_num)
  · exact brighten_valid (shear_transform_valid (nearest_resize_valid hr _ _) _ _ _)
      (by norm_num)
  · exact nearest_resize_valid (rotate45expand_valid (nearest_resize_valid ht _ _)) _ _

theorem crop_valid {im : Img} (h : im.Valid) (a b c d : Nat) :
    (im.crop a b c d).Valid := by
  intro x y
  rw [Img.crop]
  simp only
  split
  · exact getPx_valid h _ _
  · exact pixZero_valid


/-- Claim C6 (amended): the output is a valid RGBA image. -/
theorem make_iso_cube_valid {t l r : Img} (size : Nat)
    (ht : t.Valid) (hl : l.Valid) (hr : r.Valid) :
    (make_iso_cube t l r size).Valid := by
  rw [make_iso_cube, cropToBbox]
  have hc := isoCanvas_valid size ht hl hr
  split
  · exact crop_valid hc _ _ _ _
  · exact hc

theorem pixValid_of (p : Pix) (h1 : p.r ≤ 255) (h2 : p.g ≤ 255) (h3 : p.b ≤ 255)
    (h4 : p.a ≤ 255) : p.Valid :=
  ⟨h1, h2, h3, h4⟩

theorem clearImg_valid : clearImg.Valid := fun _ _ => pixZero_valid

theorem bottomRowImg_valid : bottomRowImg.Valid := by
  intro x y
  rw [bottomRowImg]
  dsimp only
  split
  · exact pixValid_of _ (by norm_num) (by norm_num) (by norm_num) (by norm_num)
  · exact pixZero_valid

theorem make_iso_cube_valid_witness :
    (make_iso_cube clearImg bottomRowImg bottomRowImg 4).Valid :=
  make_iso_cube_valid 4 clearImg_valid bottomRowImg_valid bottomRowImg_valid

theorem alphaCompPix_a0 {d s : Pix} (h : (alphaCompPix d s).a = 0) :
    alphaCompPix d s = d := by
  rw [alphaCompPix] at h ⊢
  split at h
  · rw [if_pos (by assumption)]
  · exfalso
    rename_i hsa
    have h1 : 1 ≤ s.a := Nat.one_le_iff_ne_zero.2 hsa
    have h255 : 383 ≤ s.a * 255 + d.a * (255 - s.a) + 128 := by
      have : 255 ≤ s.a * 255 := by omega
      omega
    have := shiftfordiv255_mono h255
    have h383 : shiftfordiv255 383 = 1 := by norm_num [shiftfordiv255]
    simp only at h
    omega

theorem alphaCompPix_chain_zero {s1 s2 s3 : Pix}
    (h : (alphaCompPix (alphaCompPix (alphaCompPix Pix.zero s1) s2) s3).a = 0) :
    alphaCompPix (alphaCompPix (alphaCompPix Pix.zero s1) s2) s3 = Pix.zero := by
  have h3 := alphaCompPix_a0 h
  rw [h3] at h ⊢
  have h2 := alphaCompPix_a0 h
  rw [h2] at h ⊢
  exact alphaCompPix_a0 h

/-- Any canvas pixel whose alpha is 0 is the transparent-black fill, so
"non-zero pixel" (what `getbbox` sees) and "non-fully-transparent pixel"
coincide on the composite canvas. -/
theorem isoCanvas_a_zero (t l r : Img) (size : Nat) (x y : Nat)
    (h : ((isoCanvas t l r size).px x y).a = 0) :
    (isoCanvas t l r size).px x y = Pix.zero :=
  alphaCompPix_chain_zero h


theorem nonzero_decomp {C : Img} {x y : Nat} (h : C.nonzero x y = true) :
    x < C.w ∧ y < C.h ∧ C.px x y ≠ Pix.zero := by
  rw [Img.nonzero, Bool.and_eq_true, Bool.and_eq_true] at h
  exact ⟨of_decide_eq_true h.1.1, of_decide_eq_true h.1.2, of_decide_eq_true h.2⟩

theorem nonzero_mem_nzCols {C : Img} {x y : Nat} (h : C.nonzero x y = true) :
    x ∈ C.nzCols := by
  obtain ⟨hx, hy, _⟩ := nonzero_decomp h
  exact List.mem_filter.2 ⟨List.mem_range.2 hx,
    List.any_eq_true.2 ⟨y, List.mem_range.2 hy, h⟩⟩

theorem nonzero_mem_nzRows {C : Img} {x y : Nat} (h : C.nonzero x y = true) :
    y ∈ C.nzRows := by
  obtain ⟨hx, hy, _⟩ := nonzero_decomp h
  exact List.mem_filter.2 ⟨List.mem_range.2 hy,
    List.any_eq_true.2 ⟨x, List.mem_range.2 hx, h⟩⟩

theorem cropToBbox_tight (C : Img)
    (hinv : ∀ x y, (C.px x y).a = 0 → C.px x y = Pix.zero) :
    ((∃ x y, C.nonzero x y = true) →
      (∃ y, y < (cropToBbox C).h ∧ ((cropToBbox C).px 0 y).a ≠ 0)
      ∧ (∃ y, y < (cropToBbox C).h
          ∧ ((cropToBbox C).px ((cropToBbox C).w - 1) y).a ≠ 0)
      ∧ (∃ x, x < (cropToBbox C).w ∧ ((cropToBbox C).px x 0).a ≠ 0)
      ∧ (∃ x, x < (cropToBbox C).w
          ∧ ((cropToBbox C).px x ((cropToBbox C).h - 1)).a ≠ 0))
    ∧ ((∀ x y, C.nonzero x y = false) → cropToBbox C = C) := by
  constructor
  · rintro ⟨x, y, hxy⟩
    -- the four head?/getLast? values exist
    have hcol := nonzero_mem_nzCols hxy
    have hrow := nonzero_mem_nzRows hxy
    have hcne : C.nzCols ≠ [] := List.ne_nil_of_mem hcol
    have hrne : C.nzRows ≠ [] := List.ne_nil_of_mem hrow
    have hx0 := List.head?_eq_head hcne
    have hx1 := List.getLast?_eq_getLast _ hcne
    have hy0 := List.head?_eq_head hrne
    have hy1 := List.getLast?_eq_getLast _ hrne
    set x0 := C.nzCols.head hcne with hx0def
    set x1 := C.nzCols.getLast hcne with hx1def
    set y0 := C.nzRows.head hrne with hy0def
    set y1 := C.nzRows.getLast hrne with hy1def
    have hbb : C.getbbox = some (x0, y0, x1 + 1, y1 + 1) := by
      rw [Img.getbbox, hx0, hx1, hy0, hy1]
    have hM : cropToBbox C = C.crop x0 y0 (x1 + 1) (y1 + 1) := by
      rw [cropToBbox, hbb]
    -- ordering facts
    obtain ⟨hpx0, hx0w, hx0min⟩ := head_filter_range (p := fun x =>
      (List.range C.h).any fun y => C.nonzero x y) hx0
    obtain ⟨hpx1, hx1w, hx1max⟩ := getLast_filter_range (p := fun x =>
      (List.range C.h).any fun y => C.nonzero x y) hx1
    obtain ⟨hpy0, hy0h, hy0min⟩ := head_filter_range (p := fun y =>
      (List.range C.w).any fun x => C.nonzero x y) hy0
    obtain ⟨hpy1, hy1h, hy1max⟩ := getLast_filter_range (p := fun y =>
      (List.range C.w).any fun x => C.nonzero x y) hy1
    have hx01 : x0 ≤ x1 := hx0min x1 hx1w hpx1
    have hy01 : y0 ≤ y1 := hy0min y1 hy1h hpy1
    -- a generic pixel fact about the cropped image
    have hcrop : ∀ xx yy, x0 ≤ xx → xx ≤ x1 → y0 ≤ yy → yy ≤ y1 →
        C.nonzero xx yy = true →
        ((C.crop x0 y0 (x1 + 1) (y1 + 1)).px (xx - x0) (yy - y0)).a ≠ 0 := by
      intro xx yy ha hb hc hd hnz
      obtain ⟨hxw, hyh, hpx⟩ := nonzero_decomp hnz
      rw [Img.crop]
      dsimp only
      rw [if_pos (by omega)]
      have e1 : x0 + (xx - x0) = xx := by omega
      have e2 : y0 + (yy - y0) = yy := by omega
      rw [e1, e2, Img.getPx, if_pos (by omega)]
      simp only [Int.toNat_natCast]
      intro ha0
      exact hpx (hinv xx yy ha0)
    -- nonzero witnesses in the extremal rows/columns
    obtain ⟨yc0, hyc0r, hyc0⟩ := List.any_eq_true.1 hpx0
    obtain ⟨yc1, hyc1r, hyc1⟩ := List.any_eq_true.1 hpx1
    obtain ⟨xr0, hxr0r, hxr0⟩ := List.any_eq_true.1 hpy0
    obtain ⟨xr1, hxr1r, hxr1⟩ := List.any_eq_true.1 hpy1
    have hyc0b : y0 ≤ yc0 ∧ yc0 ≤ y1 :=
      ⟨hy0min yc0 (List.mem_range.1 hyc0r) (List.any_eq_true.2
          ⟨x0, List.mem_range.2 hx0w, hyc0⟩),
        hy1max yc0 (List.mem_range.1 hyc0r) (List.any_eq_true.2
          ⟨x0, List.mem_range.2 hx0w, hyc0⟩)⟩
    have hyc1b : y0 ≤ yc1 ∧ yc1 ≤ y1 :=
      ⟨hy0min yc1 (List.mem_range.1 hyc1r) (List.any_eq_true.2
          ⟨x1, List.mem_range.2 hx1w, hyc1⟩),
        hy1max yc1 (List.mem_range.1 hyc1r) (List.any_eq_true.2
          ⟨x1, List.mem_range.2 hx1w, hyc1⟩)⟩
    have hxr0b : x0 ≤ xr0 ∧ xr0 ≤ x1 :=
      ⟨hx0min xr0 (List.mem_range.1 hxr0r) (List.any_eq_true.2
          ⟨y0, List.mem_range.2 hy0h, hxr0⟩),
        hx1max xr0 (List.mem_range.1 hxr0r) (List.any_eq_true.2
          ⟨y0, List.mem_range.2 hy0h, hxr0⟩)⟩
    have hxr1b : x0 ≤ xr1 ∧ xr1 ≤ x1 :=
      ⟨hx0min xr1 (List.mem_range.1 hxr1r) (List.any_eq_true.2
          ⟨y1, List.mem_range.2 hy1h, hxr1⟩),
        hx1max xr1 (List.mem_range.1 hxr1r) (List.any_eq_true.2
          ⟨y1, List.mem_range.2 hy1h, hxr1⟩)⟩
    have hwcrop : (C.crop x0 y0 (x1 + 1) (y1 + 1)).w = x1 + 1 - x0 := rfl
    have hhcrop : (C.crop x0 y0 (x1 + 1) (y1 + 1)).h = y1 + 1 - y0 := rfl
    rw [hM]
    refine ⟨⟨yc0 - y0, ?_, ?_⟩, ⟨yc1 - y0, ?_, ?_⟩, ⟨xr0 - x0, ?_, ?_⟩, ⟨xr1 - x0, ?_, ?_⟩⟩
    · rw [hhcrop]; omega
    · have := hcrop x0 yc0 (Nat.le_refl _) hx01 hyc0b.1 hyc0b.2 hyc0
      simpa using this
    · rw [hhcrop]; omega
    · have := hcrop x1 yc1 hx01 (Nat.le_refl _) hyc1b.1 hyc1b.2 hyc1
      have hw1 : (C.crop x0 y0 (x1 + 1) (y1 + 1)).w - 1 = x1 - x0 := by
        rw [hwcrop]; omega
      rw [hw1]
      exact this
    · rw [hwcrop]; omega
    · have := hcrop xr0 y0 hxr0b.1 hxr0b.2 (Nat.le_refl _) hy01 hxr0
      simpa using this
    · rw [hwcrop]; omega
    · have := hcrop xr1 y1 hxr1b.1 hxr1b.2 hy01 (Nat.le_refl _) hxr1
      have hh1 : (C.crop x0 y0 (x1 + 1) (y1 + 1)).h - 1 = y1 - y0 := by
        rw [hhcrop]; omega
      rw [hh1]
      exact this
  · intro hall
    have hcols : C.nzCols = [] := by
      rw [Img.nzCols, List.filter_eq_nil_iff]
      intro a ha
      rw [List.any_eq_true]
      rintro ⟨yy, hyy, hnz⟩
      rw [hall a yy] at hnz
      cases hnz
    rw [cropToBbox, Img.getbbox, hcols]
    rfl


/-- Claim C7: the result of `make_iso_cube` is the composite canvas cropped
to the exact bounding box of its non-transparent pixels — each of the four
border rows/columns of the result contains a pixel with non-zero alpha —
and when the composite is fully transparent the uncropped canvas is
returned unchanged. -/
theorem make_iso_cube_tight_crop (t l r : Img) (size : Nat) :
    ((∃ x y, (isoCanvas t l r size).nonzero x y = true) →
      (∃ y, y < (make_iso_cube t l r size).h
          ∧ ((make_iso_cube t l r size).px 0 y).a ≠ 0)
      ∧ (∃ y, y < (make_iso_cube t l r size).h
          ∧ ((make_iso_cube t l r size).px ((make_iso_cube t l r size).w - 1) y).a ≠ 0)
      ∧ (∃ x, x < (make_iso_cube t l r size).w
          ∧ ((make_iso_cube t l r size).px x 0).a ≠ 0)
      ∧ (∃ x, x < (make_iso_cube t l r size).w
          ∧ ((make_iso_cube t l r size).px x ((make_iso_cube t l r size).h - 1)).a ≠ 0))
    ∧ ((∀ x y, (isoCanvas t l r size).nonzero x y = false) →
        make_iso_cube t l r size = isoCanvas t l r size) :=
  cropToBbox_tight (isoCanvas t l r size) (isoCanvas_a_zero t l r size)

theorem nonzero_false_of (C : Img)
    (h : ∀ x, x < C.w → ∀ y, y < C.h → C.px x y = Pix.zero) :
    ∀ x y, C.nonzero x y = false := by
  intro x y
  rw [Img.nonzero]
  by_cases hx : x < C.w
  · by_cases hy : y < C.h
    · simp [hx, hy, h x hx y hy]
    · simp [hy]
  · simp [hx]

/-- Witness for C7: an opaque black cube is cropped with all four borders
populated; a fully transparent input leaves the canvas unchanged. -/
theorem make_iso_cube_tight_crop_witness :
    ((∃ y, y < (make_iso_cube blackImg blackImg blackImg 4).h
        ∧ ((make_iso_cube blackImg blackImg blackImg 4).px 0 y).a ≠ 0)
      ∧ (∃ y, y < (make_iso_cube blackImg blackImg blackImg 4).h
          ∧ ((make_iso_cube blackImg blackImg blackImg 4).px
              ((make_iso_cube blackImg blackImg blackImg 4).w - 1) y).a ≠ 0)
      ∧ (∃ x, x < (make_iso_cube blackImg blackImg blackImg 4).w
          ∧ ((make_iso_cube blackImg blackImg blackImg 4).px x 0).a ≠ 0)
      ∧ (∃ x, x < (make_iso_cube blackImg blackImg blackImg 4).w
          ∧ ((make_iso_cube blackImg blackImg blackImg 4).px x
              ((make_iso_cube blackImg blackImg blackImg 4).h - 1)).a ≠ 0))
    ∧ make_iso_cube clearImg clearImg clearImg 4 = isoCanvas clearImg clearImg clearImg 4 :=
  ⟨(make_iso_cube_tight_crop blackImg blackImg blackImg 4).1 ⟨3, 2, by decide⟩,
   (make_iso_cube_tight_crop clearImg clearImg clearImg 4).2
     (nonzero_false_of _ (by decide))⟩

/-- Counterexample to claim C6: the left and right input faces are opaque
on their bottom row, yet with `size = 4` the 0.5× vertical subsampling of
the shear reads only the faces' top row and the composite comes out fully
transparent — `make_iso_cube` returns an image with no opaque pixel at all
(the 18×5 uncropped canvas). -/
theorem make_iso_cube_opacity_counterexample :
    (bottomRowImg.px 0 3).a = 255 ∧ 0 < bottomRowImg.w ∧ 3 < bottomRowImg.h
    ∧ (make_iso_cube clearImg bottomRowImg bottomRowImg 4).w = 18
    ∧ (make_iso_cube clearImg bottomRowImg bottomRowImg 4).h = 5
    ∧ (∀ x, x < 18 → ∀ y, y < 5 →
        ((make_iso_cube clearImg bottomRowImg bottomRowImg 4).px x y).a = 0) := by
  refine ⟨rfl, by decide, by decide, by decide, by decide, by decide⟩

/-- Counterexample to claim C8's brightness comparison: for a fully opaque
black texture on both side faces the shaded left region has exactly the
same brightness mass as the shaded right region (both zero), so the
rendered left-face region is not brighter than the right one. -/
theorem shading_region_counterexample :
    Img.rgbSum (left_iso_of blackImg 4) = 0
    ∧ Img.rgbSum (right_iso_of blackImg 4) = 0
    ∧ ¬ Img.rgbSum (left_iso_of blackImg 4) > Img.rgbSum (right_iso_of blackImg 4) := by
  refine ⟨by decide, by decide, by decide⟩

/-- Claim C8 (amended): the left face is darkened with factor 0.92 and the
right face with 0.82; the factors differ, and on equal source pixels the
0.92 shading is never darker than the 0.82 shading, strictly brighter
whenever the sampled channel is bright enough (e.g. 255) — but equal for
dark channels, so the rendered left region need not be strictly brighter. -/
theorem shading_asymmetric (limg rimg img : Img) (size x y : Nat) :
    left_iso_of limg size
      = brighten (shear_transform (nearest_resize limg size size)
          (size + size / 2) (size / 2) (-1)) 92
    ∧ right_iso_of rimg size
      = brighten (shear_transform (nearest_resize rimg size size)
          (size + size / 2) (size / 2) 1) 82
    ∧ (92 : Nat) ≠ 82
    ∧ ((brighten img 92).px x y).r ≥ ((brighten img 82).px x y).r
    ∧ ((brighten img 92).px x y).g ≥ ((brighten img 82).px x y).g
    ∧ ((brighten img 92).px x y).b ≥ ((brighten img 82).px x y).b
    ∧ ((brighten img 92).px x y).a = ((brighten img 82).px x y).a
    ∧ ((img.px x y).r = 255 →
        ((brighten img 92).px x y).r > ((brighten img 82).px x y).r) := by
  refine ⟨rfl, rfl, by decide, ?_, ?_, ?_, rfl, ?_⟩
  · exact Nat.div_le_div_right (Nat.mul_le_mul_left _ (by norm_num))
  · exact Nat.div_le_div_right (Nat.mul_le_mul_left _ (by norm_num))
  · exact Nat.div_le_div_right (Nat.mul_le_mul_left _ (by norm_num))
  · intro h255
    show (img.px x y).r * 92 / 100 > (img.px x y).r * 82 / 100
    rw [h255]
    norm_num

/-- Witness for the amended C8: on a white pixel the 92 % shading is
strictly brighter than the 82 % shading. -/
theorem shading_asymmetric_witness :
    ((brighten whiteImg 92).px 0 0).r > ((brighten whiteImg 82).px 0 0).r :=
  (shading_asymmetric whiteImg whiteImg whiteImg 4 0 0).2.2.2.2.2.2.2 rfl


/-- Counterexample to claim C5: a failing `iso.save` — a per-job error in
the loop, but outside the `try` — aborts the whole batch: with two jobs and
a save that fails, `runJobs` returns the error and never reaches the second
job, so not every per-job error is caught and converted to a warning. -/
theorem runJobs_save_error_aborts :
    runJobs 4 (fun _ => .ok blackImg) (fun _ _ => .error "save failed")
        [⟨"m", "a".toList, [("a".toList, "m/a.png")]⟩,
         ⟨"m", "b".toList, [("b".toList, "m/b.png")]⟩] 0 [] []
      = .error "save failed"
    ∧ ¬ (∀ (save : String → Img → Except String Unit),
          ∃ res, runJobs 4 (fun _ => .ok blackImg) save
            [⟨"m", "a".toList, [("a".toList, "m/a.png")]⟩,
             ⟨"m", "b".toList, [("b".toList, "m/b.png")]⟩] 0 [] [] = .ok res) := by
  have habort : runJobs 4 (fun _ => .ok blackImg) (fun _ _ => .error "save failed")
      [⟨"m", "a".toList, [("a".toList, "m/a.png")]⟩,
       ⟨"m", "b".toList, [("b".toList, "m/b.png")]⟩] 0 [] []
      = .error "save failed" := rfl
  refine ⟨habort, ?_⟩
  intro h
  obtain ⟨res, hres⟩ := h (fun _ _ => .error "save failed")
  rw [habort] at hres
  exact Except.noConfusion hres

/-- Claim C5 (amended): every error raised inside the `try` — a texture
decode failure, or `load_png(None)` on an unbound slot — is caught and
converted to a warning, the job is counted as done without producing
output, and the loop continues; when saving never fails the loop completes
over all jobs, with exactly the warnings and outputs of the individual
jobs.  (Errors after the `try`, e.g. while saving, are not caught —
see the counterexample.) -/
theorem runJobs_catches_load_errors (size : Nat) (load : String → Except String Img)
    (save : String → Img → Except String Unit)
    (hsave : ∀ p i, save p i = .ok ()) :
    ∀ (jobs : List Job) (done : Nat) (warns : List String)
      (outs : List (String × Img)),
    runJobs size load save jobs done warns outs
      = .ok (done + jobs.length, warns ++ jobs.filterMap (warnOf load),
          outs ++ jobs.filterMap (outOf size load)) := by
  intro jobs
  induction jobs with
  | nil =>
    intro done warns outs
    simp [runJobs]
  | cons j rest ih =>
    intro done warns outs
    rw [runJobs]
    cases hl : loadFaces load (find_faces j.texmap) with
    | error e =>
      dsimp only
      rw [ih]
      have h1 : done + 1 + rest.length = done + (j :: rest).length := by
        simp [List.length_cons]
        omega
      have h2 : (j :: rest).filterMap (warnOf load)
          = warnMsg j e :: rest.filterMap (warnOf load) := by
        rw [List.filterMap_cons]
        simp [warnOf, hl]
      have h3 : (j :: rest).filterMap (outOf size load)
          = rest.filterMap (outOf size load) := by
        rw [List.filterMap_cons]
        simp [outOf, hl]
      rw [h1, h2, h3]
      simp
    | ok til =>
      obtain ⟨ti, li, ri⟩ := til
      dsimp only
      rw [hsave, ih]
      have h1 : done + 1 + rest.length = done + (j :: rest).length := by
        simp [List.length_cons]
        omega
      have h2 : (j :: rest).filterMap (warnOf load)
          = rest.filterMap (warnOf load) := by
        rw [List.filterMap_cons]
        simp [warnOf, hl]
      have h3 : (j :: rest).filterMap (outOf size load)
          = (out_path j.modid j.base, make_iso_cube ti li ri size)
              :: rest.filterMap (outOf size load) := by
        rw [List.filterMap_cons]
        simp [outOf, hl]
      rw [h1, h2, h3]
      simp

/-- Witness for the amended C5: two jobs, the first of which fails to
decode, produce `done = 2`, one warning and one output. -/
theorem runJobs_catches_load_errors_witness :
    runJobs 4 (fun p => if p = "m/bad.png" then .error "decode" else .ok blackImg)
        (fun _ _ => .ok ())
        [⟨"m", "bad".toList, [("bad".toList, "m/bad.png")]⟩,
         ⟨"m", "good".toList, [("good".toList, "m/good.png")]⟩] 0 [] []
      = .ok (0 + ([⟨"m", "bad".toList, [("bad".toList, "m/bad.png")]⟩,
          ⟨"m", "good".toList, [("good".toList, "m/good.png")]⟩] : List Job).length,
        [] ++ ([⟨"m", "bad".toList, [("bad".toList, "m/bad.png")]⟩,
          ⟨"m", "good".toList, [("good".toList, "m/good.png")]⟩] : List Job).filterMap
            (warnOf (fun p => if p = "m/bad.png" then .error "decode" else .ok blackImg)),
        [] ++ ([⟨"m", "bad".toList, [("bad".toList, "m/bad.png")]⟩,
          ⟨"m", "good".toList, [("good".toList, "m/good.png")]⟩] : List Job).filterMap
            (outOf 4 (fun p => if p = "m/bad.png" then .error "decode" else .ok blackImg))) :=
  runJobs_catches_load_errors 4
    (fun p => if p = "m/bad.png" then .error "decode" else .ok blackImg)
    (fun _ _ => .ok ()) (fun _ _ => rfl) _ 0 [] []


/-- Counterexample to claim C10: when the (non-existent) `blocks_dir`
coincides with `out_dir`, the `mkdir` that runs first brings `blocks_dir`
into existence, the `exists()` test passes, and no missing-root failure is
reported — so a run with a non-existent `blocks_dir` does not always
report the failure and return. -/
theorem mainStartup_counterexample :
    (["out"] : DirPath) ∉ ([] : List DirPath)
    ∧ (mainStartup [] ["out"] ["out"]).2 = StartupOutcome.proceeded
    ∧ ¬ (∀ (dirs : List DirPath) (b o : DirPath), b ∉ dirs →
          (mainStartup dirs b o).2 = StartupOutcome.missingRoot) := by
  refine ⟨by simp, rfl, ?_⟩
  intro h
  have hc := h [] ["out"] ["out"] (by simp)
  rw [show (mainStartup [] ["out"] ["out"]).2 = StartupOutcome.proceeded from rfl] at hc
  exact StartupOutcome.noConfusion hc

/-- Claim C10 (amended): provided creating the output root does not itself
bring `blocks_dir` into existence (i.e. `blocks_dir` is not `out_dir` or
one of its ancestors), a run with a non-existent `blocks_dir` still
creates the output root directory and all its missing parents before
reporting the missing-root failure and returning; nothing else is added to
the filesystem, so the failing run's only side effect is the newly created
empty output directory chain. -/
theorem mainStartup_creates_out_root (dirs : List DirPath) (b o : DirPath)
    (hmiss : b ∉ mkdirParents dirs o) :
    (mainStartup dirs b o).2 = StartupOutcome.missingRoot
    ∧ (mainStartup dirs b o).1 = mkdirParents dirs o
    ∧ (∀ i, i < o.length → o.take (i + 1) ∈ mkdirParents dirs o)
    ∧ (o ≠ [] → o ∈ mkdirParents dirs o)
    ∧ (∀ q ∈ mkdirParents dirs o, q ∈ dirs ∨ ∃ i, q = o.take (i + 1)) := by
  have htake : ∀ i, i < o.length → o.take (i + 1) ∈ mkdirParents dirs o := by
    intro i hi
    rw [mkdirParents]
    exact List.mem_append_right _ (List.mem_map.2 ⟨i, List.mem_range.2 hi, rfl⟩)
  refine ⟨?_, ?_, htake, ?_, ?_⟩
  · show (if b ∈ mkdirParents dirs o then (mkdirParents dirs o, StartupOutcome.proceeded)
        else (mkdirParents dirs o, StartupOutcome.missingRoot)).2 = _
    rw [if_neg hmiss]
  · show (if b ∈ mkdirParents dirs o then (mkdirParents dirs o, StartupOutcome.proceeded)
        else (mkdirParents dirs o, StartupOutcome.missingRoot)).1 = _
    rw [if_neg hmiss]
  · intro hne
    have hlen : 0 < o.length := List.length_pos.2 hne
    have h := htake (o.length - 1) (by omega)
    rw [show o.length - 1 + 1 = o.length by omega, List.take_length] at h
    exact h
  · intro q hq
    rcases List.mem_append.1 hq with h | h
    · exact Or.inl h
    · obtain ⟨i, _, heq⟩ := List.mem_map.1 h
      exact Or.inr ⟨i, heq.symm⟩

/-- Witness for the amended C10: with an empty filesystem, a missing
`data/blocks` and output root `data/iso`, the run reports the missing root
and leaves `data` and `data/iso` created. -/
theorem mainStartup_creates_out_root_witness :
    (mainStartup [] ["data", "blocks"] ["data", "iso"]).2 = StartupOutcome.missingRoot
    ∧ (mainStartup [] ["data", "blocks"] ["data", "iso"]).1
        = mkdirParents [] ["data", "iso"]
    ∧ (["data", "iso"] : DirPath) ∈ mkdirParents [] ["data", "iso"] :=
  have h := mainStartup_creates_out_root [] ["data", "blocks"] ["data", "iso"] (by decide)
  ⟨h.1, h.2.1, h.2.2.2.1 (by decide)⟩


theorem collect_perm_invariant {files1 files2 : List String}
    (h : files1.Perm files2) :
    collect_textures_in_moddir files1 = collect_textures_in_moddir files2 := by
  rw [collect_textures_in_moddir, collect_textures_in_moddir]
  have hperm : ((files1.filter fun p => (pathName p).endsWith ".png").mergeSort
        fun a b => decide (a ≤ b)).Perm
      ((files2.filter fun p => (pathName p).endsWith ".png").mergeSort
        fun a b => decide (a ≤ b)) :=
    ((List.mergeSort_perm _ _).trans (h.filter _)).trans
      (List.mergeSort_perm _ _).symm
  haveI : IsAntisymm String (fun a b => decide (a ≤ b) = true) :=
    ⟨fun a b ha hb => le_antisymm (of_decide_eq_true ha) (of_decide_eq_true hb)⟩
  have hsorted : ∀ l : List String, List.Sorted (fun a b => decide (a ≤ b) = true)
      (l.mergeSort fun a b => decide (a ≤ b)) := by
    intro l
    exact @List.sorted_mergeSort String (fun a b => decide (a ≤ b))
      (fun a b c h1 h2 => decide_eq_true
        (le_trans (of_decide_eq_true h1) (of_decide_eq_true h2)))
      (fun a b => by rcases le_total a b with hab | hab <;> simp [hab]) l
  rw [List.eq_of_perm_of_sorted hperm (hsorted _) (hsorted _)]

/-- Claim C9: the pipeline is deterministic.  A run is parameterised by
the orders in which the OS enumerates each mod directory's files (the
per-mod `Perm` in `hfiles` — neutralised by the `sorted(...)` in the
collector) and the mod directories themselves (`hmods` — `iterdir` order,
which only permutes the job list).  Any two runs over the same input tree
produce the same jobs, the same texture-to-face assignments and the same
rendered image for every job: the output multisets are permutations and
every (path, assignment, image) triple produced by one run is produced by
the other.  In particular the insertion-ordered mappings make the step-5
fallback (`next(iter(...))`) pick the same texture in both runs. -/
theorem pipeline_deterministic (load : String → Img) (size : Nat)
    (mods1 mods1' mods2 : List (String × List String))
    (hfiles : List.Forall₂ (fun a b => a.1 = b.1 ∧ a.2.Perm b.2) mods1 mods1')
    (hmods : mods1'.Perm mods2) :
    (pipelineOutputs load size mods1).Perm (pipelineOutputs load size mods2)
    ∧ ∀ o, o ∈ pipelineOutputs load size mods1 ↔ o ∈ pipelineOutputs load size mods2 := by
  have h1 : jobsOf mods1 = jobsOf mods1' := by
    clear hmods
    induction hfiles with
    | nil => rfl
    | cons hab htl ih =>
      rename_i a b l1 l2
      rw [jobsOf, List.flatMap_cons, jobsOf, List.flatMap_cons]
      have ih2 : (l1.flatMap fun m => jobsOfMod m.1 m.2)
          = l2.flatMap fun m => jobsOfMod m.1 m.2 := ih
      rw [ih2, jobsOfMod, jobsOfMod, hab.1, collect_perm_invariant hab.2]
  have h2 : (jobsOf mods1').Perm (jobsOf mods2) :=
    List.Perm.flatMap_right _ hmods
  have hp : (pipelineOutputs load size mods1).Perm (pipelineOutputs load size mods2) := by
    rw [pipelineOutputs, pipelineOutputs, h1]
    exact h2.map _
  exact ⟨hp, fun o => hp.mem_iff⟩

/-- Witness for C9: scanning the same mod directory in two different
orders yields the same outputs. -/
theorem pipeline_deterministic_witness :
    (pipelineOutputs (fun _ => blackImg) 4 [("m", ["m/b_top.png", "m/a.png"])]).Perm
      (pipelineOutputs (fun _ => blackImg) 4 [("m", ["m/a.png", "m/b_top.png"])]) :=
  (pipeline_deterministic (fun _ => blackImg) 4
    [("m", ["m/b_top.png", "m/a.png"])] [("m", ["m/a.png", "m/b_top.png"])]
    [("m", ["m/a.png", "m/b_top.png"])]
    (List.Forall₂.cons ⟨rfl, by decide⟩ List.Forall₂.nil) (List.Perm.refl _)).1

end RenderIso
